import Mathlib

/-!
Verification development for the Collage local-node networking core.

The definitions below are shallow embeddings of the C++ sources:
machine integers become `Nat`, maps become association lists, message
sends and request completions become explicit effect lists, and each
command handler becomes a pure function from an explicit state record
to a new state together with its emitted effects.
-/

namespace Collage

/-! ## Send-token arbitrator

State embedded from `LocalNode::Impl` (localNode.cpp): the `sendToken`
availability bit, the `lastSendToken` timestamp and the FIFO
`sendTokenQueue` of retained ACQUIRE_SEND_TOKEN commands.
-/

/-- A queued NodeAcquireSendTokenPacket: the requesting node (the command's
sending node, `command.getNode()`) and the request identifier. -/
structure AcquireCmd where
  node : Nat
  requestID : Nat
deriving DecidableEq, Repr

/-- State of the token holder: `sendToken` bit, `lastSendToken` time and
the FIFO queue of pending acquire commands. -/
structure SendTokenState where
  sendToken : Bool
  lastSendToken : Nat
  sendTokenQueue : List AcquireCmd
deriving DecidableEq, Repr

/-- A NodeAcquireSendTokenReplyPacket sent back to a requester. -/
structure TokenReply where
  node : Nat
  requestID : Nat
deriving DecidableEq, Repr

/-- Reply construction `NodeAcquireSendTokenReplyPacket reply( packet )`
sent via `request->getNode()->send( reply )`. -/
def grantReply (c : AcquireCmd) : TokenReply :=
  ⟨c.node, c.requestID⟩

/-- Value of `LB_TIMEOUT_INDEFINITE` (0xffffffffu). -/
def LB_TIMEOUT_INDEFINITE : Nat := 4294967295

/-- Embedding of `LocalNode::_cmdAcquireSendToken` (localNode.cpp).
`timeout` is `Global::getTimeout()`, `now` is `getTime64()`.  The guard
mirrors the source text `if( !_impl->sendToken == 0 )` literally: by C++
operator precedence this parses as `(!sendToken) == 0`, i.e. it is taken
exactly when `sendToken` is true. -/
def cmdAcquireSendToken (timeout now : Nat) (c : AcquireCmd)
    (s : SendTokenState) : SendTokenState × List TokenReply :=
  if (!s.sendToken) = false then
    if timeout = LB_TIMEOUT_INDEFINITE ∨ now - s.lastSendToken ≤ timeout then
      ({ s with sendTokenQueue := s.sendTokenQueue ++ [c] }, [])
    else
      ({ s with sendToken := false, sendTokenQueue := [] }, [grantReply c])
  else
    ({ s with sendToken := false }, [grantReply c])

/-- Embedding of `LocalNode::_cmdReleaseSendToken` (localNode.cpp):
record `lastSendToken = getTime64()`, ignore a double release, restore the
bit when the queue is empty, otherwise pop the front request and grant it. -/
def cmdReleaseSendToken (now : Nat) (s : SendTokenState) :
    SendTokenState × List TokenReply :=
  let s1 : SendTokenState := { s with lastSendToken := now }
  if s1.sendToken then
    (s1, [])
  else
    match s1.sendTokenQueue with
    | [] => ({ s1 with sendToken := true }, [])
    | request :: rest => ({ s1 with sendTokenQueue := rest }, [grantReply request])

/-- Embedding of the public `LocalNode::releaseSendToken( SendToken& node )`:
a null handle returns immediately; otherwise a NodeReleaseSendTokenPacket is
sent to the handle's node and the caller's handle is nulled.  The result is
the handle's value after the call together with the list of packet targets. -/
def releaseSendToken (node : Option Nat) : Option Nat × List Nat :=
  match node with
  | none => (node, [])
  | some n => (none, [n])

/-! ## LocalNode close -/

/-- Node states (`STATE_CLOSED`, `STATE_LISTENING`, `STATE_CONNECTED`,
`STATE_CLOSING`). -/
inductive NState
  | closed
  | listening
  | connected
  | closing
deriving DecidableEq, Repr

/-- Observable outcome of `LocalNode::close()`: return value, whether the
NodeStopPacket was sent, the node state afterwards, and whether the receiver
thread was joined. -/
structure CloseResult where
  ret : Bool
  sentStop : Bool
  state : NState
  joinedReceiver : Bool
deriving DecidableEq, Repr

/-- Embedding of `LocalNode::close()` (localNode.cpp): a node that is not
LISTENING returns false at once; otherwise the stop packet is sent, the
receiver thread is joined (during which `_cmdStopRcv` and `_cmdStopCmd`
move the state through CLOSING to CLOSED) and `_cleanup` runs. -/
def close (st : NState) : CloseResult :=
  if st ≠ NState.listening then ⟨false, false, st, false⟩
  else ⟨true, true, NState.closed, true⟩

/-! ## ObjectDataIStream (objectDataIStream.cpp)

The command deque holds `Option ObjectDataPacket`: the constructor pushes a
null sentinel (`_commands.push_back( 0 )`, consumed by `getNextCommand`),
and every later entry is a retained object-data command.
-/

/-- Value of `EQ_UNDEFINED_UINT32`-style `VERSION_INVALID`. -/
def VERSION_INVALID : Nat := 4294967295

/-- Header fields of an ObjectDataPacket (OBJECT_DELTA / OBJECT_INSTANCE /
OBJECT_SLAVE_DELTA) relevant to the deque invariant. -/
structure ObjectDataPacket where
  sequence : Nat
  version : Nat
  dataSize : Nat
  last : Bool
deriving DecidableEq, Repr

/-- State of an ObjectDataIStream: the command deque, the current version
and the ready flag. -/
structure ObjectDataIStream where
  commands : List (Option ObjectDataPacket)
  version : Nat
  ready : Bool
deriving DecidableEq, Repr

/-- Constructor state: `_version( VERSION_INVALID )` and a null sentinel
pushed into the deque. -/
def ObjectDataIStream.init : ObjectDataIStream :=
  ⟨[none], VERSION_INVALID, false⟩

/-- Embedding of `ObjectDataIStream::addDataPacket`: the debug assertions
(first packet has sequence 0; later packets continue the previous sequence
with the same version) become `none` on violation; an accepted packet is
retained and pushed, and `last` sets the ready flag. -/
def ObjectDataIStream.addDataPacket (s : ObjectDataIStream)
    (p : ObjectDataPacket) : Option ObjectDataIStream :=
  if s.commands.length < 2 then
    if p.sequence = 0 then
      some { s with commands := s.commands ++ [some p],
                    ready := s.ready || p.last }
    else none
  else
    match s.commands.getLast? with
    | some (some prev) =>
      if p.sequence = prev.sequence + 1 ∧ p.version = prev.version then
        some { s with commands := s.commands ++ [some p],
                      ready := s.ready || p.last }
      else none
    | _ => none

/-- Run `addDataPacket` over a list of packets, failing when any single
call hits a protocol violation. -/
def ObjectDataIStream.addAll (s : ObjectDataIStream) :
    List ObjectDataPacket → Option ObjectDataIStream
  | [] => some s
  | p :: ps =>
    match s.addDataPacket p with
    | none => none
    | some s1 => s1.addAll ps

/-! ## Child object reconciliation (DataIStream::deserializeChildren)

The template in dataIStream.h is embedded over a value model of child
objects: a child records its identifier, whether it is attached, whether it
is a master instance, and whether it was freshly created by
`object->create` during this deserialization.  The calls `sync`,
`mapObject`, `unmapObject` and `release` become effect lists.
-/

/-- Value model of a child object. -/
structure Child where
  id : Nat
  attached : Bool
  master : Bool
  fresh : Bool
deriving DecidableEq, Repr

/-- An (identifier, version) pair; identifier 0 stands for UUID::ZERO. -/
structure ObjectVersion where
  identifier : Nat
  version : Nat
deriving DecidableEq, Repr

/-- Distinguished version constant VERSION_HEAD ("track master"). -/
def VERSION_HEAD : Nat := 18446744073709551615

/-- Combined `stde::find_if( old, ObjectFinder( identifier ))` and
`old.erase( j )`: the first child whose id equals `cid` together with the
vector without that entry, or none when no child matches. -/
def extractChild (cid : Nat) :
    List (Option Child) → Option (Child × List (Option Child))
  | [] => none
  | some c :: rest =>
    if c.id = cid then some (c, rest)
    else
      match extractChild cid rest with
      | some (f, rest') => some (f, some c :: rest')
      | none => none
  | none :: rest =>
    match extractChild cid rest with
    | some (f, rest') => some (f, none :: rest')
    | none => none

/-- Child produced by `object->create( &child )` and then mapped by
`localNode->mapObject( child, version )`: an attached slave instance with
the serialized identifier. -/
def createdChild (cid : Nat) : Child :=
  ⟨cid, true, false, true⟩

/-- Output of the result-building loop: the rebuilt result vector, what is
left of the (snapshotted) old vector, and the sync/map effects in order. -/
structure BuildOut where
  result : List (Option Child)
  oldRemaining : List (Option Child)
  synced : List (Nat × Nat)
  mapped : List (Nat × ObjectVersion)
deriving DecidableEq, Repr

/-- Embedding of the first loop of `deserializeChildren`: rebuild the result
vector in serialized order, removing matched children from the snapshot,
syncing matches (to VERSION_HEAD when this object is master, else to the
serialized version) and creating/mapping unknown identifiers. -/
def buildPhase (master : Bool) :
    List ObjectVersion → List (Option Child) → BuildOut
  | [], old => ⟨[], old, [], []⟩
  | v :: vs, old =>
    if v.identifier = 0 then
      let r := buildPhase master vs old
      { r with result := none :: r.result }
    else
      match extractChild v.identifier old with
      | none =>
        let child := createdChild v.identifier
        let r := buildPhase master vs old
        { r with result := some child :: r.result,
                 mapped := (child.id, v) :: r.mapped }
      | some (c, oldRest) =>
        let r := buildPhase master vs oldRest
        { r with result := some c :: r.result,
                 synced := (c.id, if master then VERSION_HEAD else v.version)
                   :: r.synced }

/-- Embedding of the removal loop (`while( !old.empty( ))` popping from the
back): null entries are skipped, an attached non-master child is unmapped,
and every remaining child is released.  The argument is the remaining old
vector already reversed to match the pop_back order. -/
def removePhase : List (Option Child) → List Nat × List Nat
  | [] => ([], [])
  | none :: rest => removePhase rest
  | some c :: rest =>
    let r := removePhase rest
    (if c.attached && !c.master then c.id :: r.1 else r.1, c.id :: r.2)

/-- Full observable outcome of `deserializeChildren`. -/
structure DesOut where
  result : List (Option Child)
  synced : List (Nat × Nat)
  mapped : List (Nat × ObjectVersion)
  unmapped : List Nat
  released : List Nat
deriving DecidableEq, Repr

/-- Embedding of `DataIStream::deserializeChildren` after the ObjectVersions
list has been read off the stream: snapshot the old vector, rebuild the
result in serialized order, then unmap/release the leftovers from the back. -/
def deserializeChildren (master : Bool) (old_ : List (Option Child))
    (versions : List ObjectVersion) : DesOut :=
  let old := old_
  let b := buildPhase master versions old
  let rm := removePhase b.oldRemaining.reverse
  ⟨b.result, b.synced, b.mapped, rm.1, rm.2⟩

/-- Memory cells for the `result` and `old_` vector references; when
`aliased` is true both names denote one vector, so a write through one is
seen through the other. -/
structure ChildStore where
  aliased : Bool
  resultCell : List (Option Child)
  oldCell : List (Option Child)
deriving DecidableEq, Repr

/-- Write through the `result` reference. -/
def ChildStore.writeResult (st : ChildStore) (v : List (Option Child)) :
    ChildStore :=
  if st.aliased then ⟨true, v, v⟩ else ⟨st.aliased, v, st.oldCell⟩

/-- One `result.push_back` through the `result` reference. -/
def ChildStore.pushResult (st : ChildStore) (c : Option Child) : ChildStore :=
  st.writeResult (st.resultCell ++ [c])

/-- The result-building loop performed through the vector references: each
append is a write through the `result` reference, while the matching works
on the snapshot `old` taken before `result.clear()`. -/
def buildPhaseStore (master : Bool) :
    List ObjectVersion → List (Option Child) → ChildStore → ChildStore
  | [], _, st => st
  | v :: vs, old, st =>
    if v.identifier = 0 then
      buildPhaseStore master vs old (st.pushResult none)
    else
      match extractChild v.identifier old with
      | none =>
        buildPhaseStore master vs old
          (st.pushResult (some (createdChild v.identifier)))
      | some (c, oldRest) =>
        buildPhaseStore master vs oldRest (st.pushResult (some c))

/-- The entry sequence of `deserializeChildren` on the vector references:
`std::vector< C* > old = old_;` (snapshot through the old reference), then
`result.clear()` (write through the result reference), then the building
loop. -/
def deserializeChildrenStore (master : Bool) (versions : List ObjectVersion)
    (st : ChildStore) : ChildStore :=
  let old := st.oldCell
  let st1 := st.writeResult []
  buildPhaseStore master versions old st1

/-! ## Connect handshake handlers (LocalNode::_cmdConnect, _cmdConnectReply)

NodeIDs and connections are numbered; NodeID::ZERO is 0.  The two
receiver-thread maps (`_impl->nodes`, `_impl->connectionNodes`) become
association lists, and the incoming connection set a list of connection
numbers.  Request completions (`serveRequest`) and CONNECT_ACK sends
become effect lists.
-/

/-- A remote Node record: identifier, node type, state and outgoing
connection. -/
structure RNode where
  id : Nat
  nodeType : Nat
  state : NState
  outgoing : Option Nat
deriving DecidableEq, Repr

/-- Receiver-side connection bookkeeping of a LocalNode. -/
structure NetState where
  selfId : Nat
  selfType : Nat
  nodes : List (Nat × RNode)
  connectionNodes : List (Nat × RNode)
  incoming : List Nat
deriving DecidableEq, Repr

/-- Map insertion `map[ key ] = value` (overwrite). -/
def mapInsert (m : List (Nat × RNode)) (k : Nat) (v : RNode) :
    List (Nat × RNode) :=
  (k, v) :: m.filter (fun kv => kv.1 != k)

/-- Map erase `map.erase( key )`. -/
def mapErase (m : List (Nat × RNode)) (k : Nat) : List (Nat × RNode) :=
  m.filter (fun kv => kv.1 != k)

/-- A NodeConnectPacket: the requester's pending request id, its node id
and node type (the serialized node-data blob is subsumed by id and type). -/
structure ConnectPacket where
  requestID : Nat
  nodeID : Nat
  nodeType : Nat
deriving DecidableEq, Repr

/-- A NodeConnectReplyPacket. -/
structure ConnectReplyPacket where
  requestID : Nat
  nodeID : Nat
  nodeType : Nat
deriving DecidableEq, Repr

/-- Modelled from the spec: the `NodeConnectReplyPacket` constructor (the
packet header file is not among the sources; only its uses are).  Per the
spec, "CONNECT_REPLY: peer's nodeID (ZERO on refusal)": the constructor
copies the request's requestID and initializes nodeID to NodeID::ZERO = 0,
which the refusal path sends unchanged. -/
def mkConnectReply (p : ConnectPacket) : ConnectReplyPacket :=
  ⟨p.requestID, 0, 0⟩

/-- `createNode( packet->nodeType )`: a fresh Node in state CLOSED. -/
def createNode (nodeType : Nat) : RNode :=
  ⟨0, nodeType, NState.closed, none⟩

/-- `_removeConnection( connection )`: take the connection out of the
incoming connection set and close it; the node maps are not touched. -/
def removeConnection (s : NetState) (conn : Nat) : NetState :=
  { s with incoming := s.incoming.erase conn }

/-- Common accept tail: deserialize the node data into the peer record,
mark it CONNECTED on this connection and store it in both maps under the
writer lock. -/
def storeConnected (s : NetState) (conn : Nat) (nodeID : Nat) (peer : RNode) :
    NetState :=
  let node : RNode := { peer with id := nodeID, state := NState.connected,
                                  outgoing := some conn }
  { s with connectionNodes := mapInsert s.connectionNodes conn node,
           nodes := mapInsert s.nodes nodeID node }

/-- Embedding of `LocalNode::_cmdConnect`: the new state together with the
(connection, reply) sends. -/
def cmdConnect (s : NetState) (conn : Nat) (p : ConnectPacket) :
    NetState × List (Nat × ConnectReplyPacket) :=
  match s.nodes.lookup p.nodeID with
  | some remote =>
    if remote.state = NState.connected then
      (removeConnection s conn, [(conn, mkConnectReply p)])
    else
      (storeConnected s conn p.nodeID remote,
       [(conn, { mkConnectReply p with nodeID := s.selfId,
                                       nodeType := s.selfType })])
  | none =>
    (storeConnected s conn p.nodeID (createNode p.nodeType),
     [(conn, { mkConnectReply p with nodeID := s.selfId,
                                     nodeType := s.selfType })])

/-- Effects of `_cmdConnectReply`: new state, served requests (id, value)
and the nodes sent a NodeConnectAckPacket. -/
structure ReplyEffects where
  state : NetState
  served : List (Nat × Bool)
  acksTo : List Nat
deriving DecidableEq, Repr

/-- Common tail of `_cmdConnectReply`: deserialize the peer, mark it
CONNECTED, store it in both maps, serve the connect request true and send
CONNECT_ACK. -/
def finishConnectReply (s : NetState) (conn : Nat) (p : ConnectReplyPacket)
    (peer : RNode) : ReplyEffects :=
  ⟨storeConnected s conn p.nodeID peer, [(p.requestID, true)], [p.nodeID]⟩

/-- Embedding of `LocalNode::_cmdConnectReply`; `requestNode` is the node
registered as request data for `p.requestID` (`getRequestData`), consulted
when the nodeID is not yet in the map. -/
def cmdConnectReply (s : NetState) (conn : Nat) (p : ConnectReplyPacket)
    (requestNode : Option RNode) : ReplyEffects :=
  if p.nodeID = 0 then
    ⟨removeConnection s conn, [(p.requestID, false)], []⟩
  else
    match s.nodes.lookup p.nodeID with
    | some peer =>
      if peer.state = NState.connected then
        let s1 := removeConnection s conn
        let s2 : NetState := { s1 with
          connectionNodes :=
            match peer.outgoing with
            | some oc => mapErase s1.connectionNodes oc
            | none => s1.connectionNodes,
          nodes := mapErase s1.nodes p.nodeID }
        ⟨s2, [(p.requestID, false)], []⟩
      else finishConnectReply s conn p peer
    | none =>
      match requestNode with
      | some n => finishConnectReply s conn p n
      | none => finishConnectReply s conn p (createNode p.nodeType)

/-! ## Connect-by-NodeID retry loop (LocalNode::_connect( NodeID, NodePtr )) -/

/-- Outcomes of one `_connect( node )` attempt. -/
inductive ConnectResult
  | ok
  | tryAgain
  | badState
  | timedOut
  | unreachable
deriving DecidableEq, Repr

/-- Observable trace of the retry loop: number of `_connect( node )` calls
made, the back-off sleeps performed (in ms) and whether the loop returned
through CONNECT_OK. -/
structure RetryTrace where
  attempts : Nat
  sleeps : List Nat
  okReturn : Bool
deriving DecidableEq, Repr

/-- Embedding of the retry loop `size_t tries = 10; while( --tries )` of
`LocalNode::_connect( const NodeID&, NodePtr )`: `oracle` lists the outcome
of each successive `_connect( node )` call, `rng` the successive draws of
`rng.get< uint8_t >()` (truncated mod 256 for `lunchbox::sleep`).
CONNECT_OK returns the node, CONNECT_BAD_STATE falls through to
CONNECT_TIMEOUT and returns 0, CONNECT_TRY_AGAIN sleeps and loops,
CONNECT_UNREACHABLE loops without sleeping (re-checking for a simultaneous
connect from the peer). -/
def connectRetry : Nat → List ConnectResult → List Nat → RetryTrace
  | 0, _, _ => ⟨0, [], false⟩
  | tries + 1, oracle, rng =>
    if tries = 0 then ⟨0, [], false⟩
    else
      match oracle with
      | [] => ⟨0, [], false⟩
      | r :: os =>
        match r with
        | ConnectResult.ok => ⟨1, [], true⟩
        | ConnectResult.badState => ⟨1, [], false⟩
        | ConnectResult.timedOut => ⟨1, [], false⟩
        | ConnectResult.tryAgain =>
          let t := connectRetry tries os rng.tail
          ⟨t.attempts + 1, rng.headD 0 % 256 :: t.sleeps, t.okReturn⟩
        | ConnectResult.unreachable =>
          let t := connectRetry tries os rng
          ⟨t.attempts + 1, t.sleeps, t.okReturn⟩

/-- The retry loop as entered by `_connect( NodeID, NodePtr )`, with the
counter initialized to `size_t tries = 10`. -/
def connectByNodeID (oracle : List ConnectResult) (rng : List Nat) :
    RetryTrace :=
  connectRetry 10 oracle rng

/-! ## Pending-command redispatch (LocalNode::_redispatchCommands) -/

/-- A pending command, identified by its allocation id. -/
structure PCmd where
  id : Nat
deriving DecidableEq, Repr

/-- One inner pass of `_redispatchCommands`: walk the pending list from the
front; the first command whose `dispatchCommand` succeeds is erased (the
pass breaks with `changes = true`), yielding the shortened list and the new
dispatch state; `none` when a full pass dispatches nothing.  A dispatch that
returns false defers the command and leaves the state unchanged. -/
def findDispatch {σ : Type} (d : σ → PCmd → Option σ) (s : σ) :
    List PCmd → Option (List PCmd × σ)
  | [] => none
  | c :: cs =>
    match d s c with
    | some s' => some (cs, s')
    | none =>
      match findDispatch d s cs with
      | some (cs', s') => some (c :: cs', s')
      | none => none

/-- The outer `while( changes && !_impl->pendingCommands.empty( ))` loop of
`_redispatchCommands`, with an explicit fuel counter; `none` means the fuel
ran out before the loop exited. -/
def redispatchFuel {σ : Type} (d : σ → PCmd → Option σ) :
    Nat → List PCmd → σ → Option (List PCmd × σ)
  | 0, _, _ => none
  | fuel + 1, l, s =>
    if l.isEmpty then some (l, s)
    else
      match findDispatch d s l with
      | none => some (l, s)
      | some (l', s') => redispatchFuel d fuel l' s'

/-- Continuation check for one packet after the given previous packet (none
when the stream holds no packet yet). -/
def follows : Option ObjectDataPacket → ObjectDataPacket → Bool
  | none, p => p.sequence == 0
  | some prev, p => p.sequence == prev.sequence + 1 && p.version == prev.version

/-- Continuation check for a whole packet list after the given previous
packet. -/
def chainFrom : Option ObjectDataPacket → List ObjectDataPacket → Bool
  | _, [] => true
  | prev, p :: ps => follows prev p && chainFrom (some p) ps

end Collage

namespace Collage

/-! ## Theorems about the send-token arbitrator and close -/

/-- C1: at the failing input -- the token is available (`sendToken = true`,
the initial state) and the request is within the timeout window -- the
handler retains and enqueues the ACQUIRE command and sends no grant, and
with the token NOT available (`sendToken = false`) it grants immediately;
both directions contradict the claimed behaviour (grant immediately when
the bit is true, enqueue when it is false) and the source's own comment
"enqueue command if no token available", because `!_impl->sendToken == 0`
parses as `(!sendToken) == 0`. -/
theorem cmdAcquireSendToken_inverted :
    cmdAcquireSendToken 5000 100 ⟨1, 7⟩ ⟨true, 0, []⟩ =
      (⟨true, 0, [⟨1, 7⟩]⟩, []) ∧
    cmdAcquireSendToken 5000 100 ⟨1, 7⟩ ⟨false, 0, []⟩ =
      (⟨false, 0, []⟩, [⟨1, 7⟩]) := by
  constructor <;> rfl

/-- C7 counterexample: a RELEASE_SEND_TOKEN handled while the bit is already
true is not a no-op on the token state: with `lastSendToken = 0` and
`now = 5` the state changes (the timestamp is refreshed to 5). -/
theorem cmdReleaseSendToken_not_noop :
    cmdReleaseSendToken 5 ⟨true, 0, []⟩ ≠ (⟨true, 0, []⟩, []) := by
  decide

/-- C7 (amended): a double release (bit already true) leaves the bit and the
queue unchanged and sends no reply, but refreshes `lastSendToken` to `now`;
otherwise an empty queue restores the bit to true, and a non-empty queue pops
the oldest request (FIFO front) and grants it instead of restoring the bit. -/
theorem cmdReleaseSendToken_spec (now : Nat) (s : SendTokenState) :
    (s.sendToken = true →
      cmdReleaseSendToken now s = ({ s with lastSendToken := now }, [])) ∧
    (s.sendToken = false → s.sendTokenQueue = [] →
      cmdReleaseSendToken now s =
        ({ s with sendToken := true, lastSendToken := now }, [])) ∧
    (∀ q rest, s.sendToken = false → s.sendTokenQueue = q :: rest →
      cmdReleaseSendToken now s =
        ({ s with lastSendToken := now, sendTokenQueue := rest },
         [grantReply q])) := by
  refine ⟨fun h => ?_, fun h hq => ?_, fun q rest h hq => ?_⟩
  · simp [cmdReleaseSendToken, h]
  · simp [cmdReleaseSendToken, h, hq]
  · simp [cmdReleaseSendToken, h, hq]

/-- C7 witness: the three branches of `cmdReleaseSendToken_spec` at concrete
states. -/
theorem cmdReleaseSendToken_spec_witness :
    cmdReleaseSendToken 5 ⟨true, 0, []⟩ = (⟨true, 5, []⟩, []) ∧
    cmdReleaseSendToken 5 ⟨false, 0, []⟩ = (⟨true, 5, []⟩, []) ∧
    cmdReleaseSendToken 5 ⟨false, 0, [⟨1, 7⟩, ⟨2, 8⟩]⟩ =
      (⟨false, 5, [⟨2, 8⟩]⟩, [⟨1, 7⟩]) :=
  ⟨(cmdReleaseSendToken_spec 5 ⟨true, 0, []⟩).1 rfl,
   (cmdReleaseSendToken_spec 5 ⟨false, 0, []⟩).2.1 rfl rfl,
   (cmdReleaseSendToken_spec 5 ⟨false, 0, [⟨1, 7⟩, ⟨2, 8⟩]⟩).2.2 ⟨1, 7⟩
     [⟨2, 8⟩] rfl rfl⟩

/-- C9: the public `releaseSendToken` sends nothing when the handle is null,
and in every case the caller's handle is null when the call returns. -/
theorem releaseSendToken_spec :
    releaseSendToken none = (none, []) ∧
    ∀ node : Option Nat, (releaseSendToken node).1 = none := by
  refine ⟨rfl, fun node => ?_⟩
  cases node <;> rfl

/-- C10: `close()` on a node that is not LISTENING returns false, sends no
stop packet and leaves the state unchanged; it returns true only from the
LISTENING state, and then only after the receiver thread has been joined. -/
theorem close_spec (st : NState) :
    (st ≠ NState.listening → close st = ⟨false, false, st, false⟩) ∧
    ((close st).ret = true →
      st = NState.listening ∧ (close st).joinedReceiver = true) := by
  cases st <;> simp [close]

/-! ## Theorems about ObjectDataIStream -/

/-- Shape lemma: on a deque consisting of the null sentinel followed by the
packets `qs`, one `addDataPacket` succeeds exactly when the new packet
continues the last accepted one, and then appends it (setting ready on
`last`). -/
theorem addDataPacket_eq (s : ObjectDataIStream) (qs : List ObjectDataPacket)
    (hs : s.commands = none :: qs.map some) (p : ObjectDataPacket) :
    s.addDataPacket p =
      if follows qs.getLast? p then
        some ⟨none :: (qs ++ [p]).map some, s.version, s.ready || p.last⟩
      else none := by
  obtain ⟨cs, v, r⟩ := s
  simp only at hs
  subst hs
  cases qs with
  | nil =>
    simp only [ObjectDataIStream.addDataPacket, follows, List.map_nil,
      List.length_cons, List.length_nil, List.nil_append, List.map_cons]
    by_cases h : p.sequence = 0 <;> simp [h]
  | cons q qs' =>
    have hne : (q :: qs').getLast?.isSome = true := by
      rw [List.getLast?_isSome]
      simp
    obtain ⟨prev, hprev⟩ := Option.isSome_iff_exists.mp hne
    have hcl : (none :: (q :: qs').map some
        : List (Option ObjectDataPacket)).getLast? = some (some prev) := by
      rw [show ((none :: (q :: qs').map some : List (Option ObjectDataPacket)))
            = none :: some q :: qs'.map some by simp]
      rw [List.getLast?_cons_cons]
      rw [show (some q :: qs'.map some : List (Option ObjectDataPacket))
            = (q :: qs').map some by simp]
      rw [List.getLast?_map, hprev]
      rfl
    have hlen : ¬ ((none :: (q :: qs').map some
        : List (Option ObjectDataPacket)).length < 2) := by
      simp
    simp only [ObjectDataIStream.addDataPacket, hlen, if_false, hcl, hprev,
      follows]
    by_cases h : p.sequence = prev.sequence + 1 ∧ p.version = prev.version
    · simp [h, h.1, h.2]
    · rw [if_neg h]
      have hb : (p.sequence == prev.sequence + 1 &&
          p.version == prev.version) = false := by
        rcases Decidable.not_and_iff_or_not.mp h with h1 | h1 <;>
          simp [h1]
      simp [hb]

/-- Shape lemma for a whole run of `addDataPacket` over a list of packets. -/
theorem addAll_eq (ps : List ObjectDataPacket) :
    ∀ (qs : List ObjectDataPacket) (s : ObjectDataIStream),
      s.commands = none :: qs.map some →
      s.addAll ps =
        if chainFrom qs.getLast? ps then
          some ⟨none :: (qs ++ ps).map some, s.version,
                s.ready || ps.any (fun p => p.last)⟩
        else none := by
  induction ps with
  | nil =>
    intro qs s hs
    obtain ⟨cs, v, r⟩ := s
    simp only at hs
    subst hs
    simp [ObjectDataIStream.addAll, chainFrom]
  | cons p ps ih =>
    intro qs s hs
    simp only [ObjectDataIStream.addAll]
    rw [addDataPacket_eq s qs hs p]
    by_cases hf : follows qs.getLast? p = true
    · rw [if_pos hf]
      have hstep := ih (qs ++ [p])
        ⟨none :: (qs ++ [p]).map some, s.version, s.ready || p.last⟩ rfl
      simp only at hstep
      show ObjectDataIStream.addAll
          ⟨none :: (qs ++ [p]).map some, s.version, s.ready || p.last⟩ ps = _
      rw [hstep, List.getLast?_concat]
      have hcond : chainFrom qs.getLast? (p :: ps) = chainFrom (some p) ps := by
        simp [chainFrom, hf]
      rw [hcond]
      by_cases hc : chainFrom (some p) ps = true
      · rw [if_pos hc, if_pos hc]
        simp [List.append_assoc, Bool.or_assoc]
      · rw [if_neg hc, if_neg hc]
    · rw [if_neg hf]
      have hcond : chainFrom qs.getLast? (p :: ps) = false := by
        simp only [chainFrom, Bool.and_eq_true] at hf ⊢
        simp only [Bool.and_eq_false_iff]
        left
        exact Bool.not_eq_true _ ▸ Bool.eq_false_iff.mpr hf
      simp [hcond]

/-- Index characterization of a chain continuing a given previous packet:
sequence numbers continue arithmetically and the version is constant. -/
theorem chainFrom_some_iff (ps : List ObjectDataPacket) :
    ∀ prev : ObjectDataPacket,
      chainFrom (some prev) ps = true ↔
      ∀ (i : Nat) (h : i < ps.length),
        (ps.get ⟨i, h⟩).sequence = prev.sequence + 1 + i ∧
        (ps.get ⟨i, h⟩).version = prev.version := by
  induction ps with
  | nil =>
    intro prev
    constructor
    · intro _ i h
      exact absurd h (by simp)
    · intro _
      rfl
  | cons p ps ih =>
    intro prev
    simp only [chainFrom, Bool.and_eq_true, follows, beq_iff_eq]
    constructor
    · rintro ⟨⟨hseq, hver⟩, hchain⟩ i h
      cases i with
      | zero =>
        exact ⟨by simpa using hseq, hver⟩
      | succ j =>
        have hj := (ih p).mp hchain j (Nat.lt_of_succ_lt_succ h)
        refine ⟨?_, ?_⟩
        · show (ps.get ⟨j, Nat.lt_of_succ_lt_succ h⟩).sequence =
            prev.sequence + 1 + (j + 1)
          rw [hj.1, hseq]
          omega
        · exact hj.2.trans hver
    · intro h
      have h0 := h 0 (Nat.succ_pos _)
      have hp0 : p.sequence = prev.sequence + 1 := by
        have h1 : p.sequence = prev.sequence + 1 + 0 := h0.1
        omega
      refine ⟨⟨hp0, h0.2⟩, (ih p).mpr ?_⟩
      intro j hjl
      have hj := h (j + 1) (Nat.succ_lt_succ hjl)
      refine ⟨?_, ?_⟩
      · have h1 : (ps.get ⟨j, hjl⟩).sequence = prev.sequence + 1 + (j + 1) :=
          hj.1
        rw [h1, hp0]
        omega
      · exact hj.2.trans h0.2.symm

/-- Index characterization of a chain starting from the empty stream. -/
theorem chainFrom_none_iff (ps : List ObjectDataPacket) :
    chainFrom none ps = true ↔
      (∀ (i : Nat) (h : i < ps.length), (ps.get ⟨i, h⟩).sequence = i) ∧
      (∀ p ∈ ps, ∀ q ∈ ps, p.version = q.version) := by
  cases ps with
  | nil =>
    constructor
    · intro _
      exact ⟨fun i h => absurd h (by simp), by simp⟩
    · intro _
      rfl
  | cons p ps =>
    simp only [chainFrom, Bool.and_eq_true, follows, beq_iff_eq]
    rw [chainFrom_some_iff]
    constructor
    · rintro ⟨h0, hrest⟩
      have hv : ∀ a ∈ p :: ps, a.version = p.version := by
        intro a ha
        rcases List.mem_cons.mp ha with rfl | ha'
        · rfl
        · obtain ⟨⟨j, hjl⟩, hj⟩ := List.mem_iff_get.mp ha'
          rw [← hj]
          exact (hrest j hjl).2
      constructor
      · intro i h
        cases i with
        | zero => simpa using h0
        | succ j =>
          have := (hrest j (Nat.lt_of_succ_lt_succ h)).1
          show (ps.get ⟨j, Nat.lt_of_succ_lt_succ h⟩).sequence = j + 1
          rw [this, h0]
          omega
      · intro a ha b hb
        rw [hv a ha, hv b hb]
    · rintro ⟨hseq, hver⟩
      have h0 : p.sequence = 0 := hseq 0 (Nat.succ_pos _)
      refine ⟨h0, ?_⟩
      intro j hjl
      have hj : (ps.get ⟨j, hjl⟩).sequence = j + 1 :=
        hseq (j + 1) (Nat.succ_lt_succ hjl)
      refine ⟨?_, ?_⟩
      · rw [hj, h0]
        omega
      · exact hver _ (List.mem_cons_of_mem p (List.get_mem ps j hjl)) p
          (by simp)

/-- C3: starting from a fresh (or reset) ObjectDataIStream, a run of
`addDataPacket` calls succeeds (no fatal protocol assertion) exactly when
the i-th packet has sequence i and all packets share one version; on
success the deque holds the null sentinel followed by the packets in order,
and the stream is ready exactly when some packet carried `last = true`. -/
theorem addDataPacket_protocol (ps : List ObjectDataPacket) :
    ((∃ s, ObjectDataIStream.init.addAll ps = some s) ↔
      (∀ (i : Nat) (h : i < ps.length), (ps.get ⟨i, h⟩).sequence = i) ∧
      (∀ p ∈ ps, ∀ q ∈ ps, p.version = q.version)) ∧
    (∀ s, ObjectDataIStream.init.addAll ps = some s →
      s.commands = none :: ps.map some ∧
      s.ready = ps.any (fun p => p.last)) := by
  have hrun := addAll_eq ps [] ObjectDataIStream.init rfl
  simp only [List.getLast?_nil, List.nil_append, Bool.false_or] at hrun
  constructor
  · constructor
    · rintro ⟨s, hsome⟩
      rw [hrun] at hsome
      by_cases hc : chainFrom none ps = true
      · exact (chainFrom_none_iff ps).mp hc
      · simp [hc] at hsome
    · intro hcond
      rw [hrun, if_pos ((chainFrom_none_iff ps).mpr hcond)]
      exact ⟨_, rfl⟩
  · intro s hsome
    rw [hrun] at hsome
    by_cases hc : chainFrom none ps = true
    · rw [if_pos hc] at hsome
      cases hsome
      exact ⟨rfl, rfl⟩
    · simp [hc] at hsome

/-- C3 witness: a two-packet run (sequences 0 and 1, same version, second
packet final) accepted from the initial state, with the concluded deque
shape and ready flag. -/
theorem addDataPacket_protocol_witness :
    (⟨[none, some ⟨0, 3, 10, false⟩, some ⟨1, 3, 5, true⟩], VERSION_INVALID,
        true⟩ : ObjectDataIStream).commands =
      none :: ([⟨0, 3, 10, false⟩, ⟨1, 3, 5, true⟩]
        : List ObjectDataPacket).map some ∧
    (⟨[none, some ⟨0, 3, 10, false⟩, some ⟨1, 3, 5, true⟩], VERSION_INVALID,
        true⟩ : ObjectDataIStream).ready =
      ([⟨0, 3, 10, false⟩, ⟨1, 3, 5, true⟩]
        : List ObjectDataPacket).any (fun p => p.last) :=
  (addDataPacket_protocol [⟨0, 3, 10, false⟩, ⟨1, 3, 5, true⟩]).2 _ (by decide)

/-! ## Theorems about deserializeChildren -/

/-- A successfully extracted child was a member of the vector and carries
the requested identifier. -/
theorem extractChild_mem (cid : Nat) :
    ∀ (old : List (Option Child)) (c : Child) (rest : List (Option Child)),
      extractChild cid old = some (c, rest) → some c ∈ old ∧ c.id = cid := by
  intro old
  induction old with
  | nil =>
    intro c rest h
    simp [extractChild] at h
  | cons oc old ih =>
    intro c rest h
    cases oc with
    | none =>
      simp only [extractChild] at h
      cases hrec : extractChild cid old with
      | none =>
        rw [hrec] at h
        exact absurd h (by simp)
      | some pr =>
        obtain ⟨f, rest'⟩ := pr
        rw [hrec] at h
        simp only [Option.some.injEq, Prod.mk.injEq] at h
        obtain ⟨hc, -⟩ := h
        obtain ⟨hm, hid⟩ := ih f rest' hrec
        exact ⟨List.mem_cons_of_mem _ (hc ▸ hm), hc ▸ hid⟩
    | some d =>
      simp only [extractChild] at h
      by_cases hd : d.id = cid
      · rw [if_pos hd] at h
        simp only [Option.some.injEq, Prod.mk.injEq] at h
        obtain ⟨hc, -⟩ := h
        subst hc
        exact ⟨List.mem_cons_self _ _, hd⟩
      · rw [if_neg hd] at h
        cases hrec : extractChild cid old with
        | none =>
          rw [hrec] at h
          exact absurd h (by simp)
        | some pr =>
          obtain ⟨f, rest'⟩ := pr
          rw [hrec] at h
          simp only [Option.some.injEq, Prod.mk.injEq] at h
          obtain ⟨hc, -⟩ := h
          obtain ⟨hm, hid⟩ := ih f rest' hrec
          exact ⟨List.mem_cons_of_mem _ (hc ▸ hm), hc ▸ hid⟩

/-- The vector left by an extraction is contained in the original vector. -/
theorem extractChild_rest_mem (cid : Nat) :
    ∀ (old : List (Option Child)) (c : Child) (rest : List (Option Child)),
      extractChild cid old = some (c, rest) → ∀ x, x ∈ rest → x ∈ old := by
  intro old
  induction old with
  | nil =>
    intro c rest h
    simp [extractChild] at h
  | cons oc old ih =>
    intro c rest h x hx
    cases oc with
    | none =>
      simp only [extractChild] at h
      cases hrec : extractChild cid old with
      | none =>
        rw [hrec] at h
        exact absurd h (by simp)
      | some pr =>
        obtain ⟨f, rest'⟩ := pr
        rw [hrec] at h
        simp only [Option.some.injEq, Prod.mk.injEq] at h
        obtain ⟨-, hrest⟩ := h
        subst hrest
        rcases List.mem_cons.mp hx with rfl | hx'
        · exact List.mem_cons_self _ _
        · exact List.mem_cons_of_mem _ (ih f rest' hrec x hx')
    | some d =>
      simp only [extractChild] at h
      by_cases hd : d.id = cid
      · rw [if_pos hd] at h
        simp only [Option.some.injEq, Prod.mk.injEq] at h
        obtain ⟨-, hrest⟩ := h
        subst hrest
        exact List.mem_cons_of_mem _ hx
      · rw [if_neg hd] at h
        cases hrec : extractChild cid old with
        | none =>
          rw [hrec] at h
          exact absurd h (by simp)
        | some pr =>
          obtain ⟨f, rest'⟩ := pr
          rw [hrec] at h
          simp only [Option.some.injEq, Prod.mk.injEq] at h
          obtain ⟨-, hrest⟩ := h
          subst hrest
          rcases List.mem_cons.mp hx with rfl | hx'
          · exact List.mem_cons_self _ _
          · exact List.mem_cons_of_mem _ (ih f rest' hrec x hx')

/-- Every member of the original vector is either the extracted child or a
member of the vector left by the extraction. -/
theorem extractChild_cover (cid : Nat) :
    ∀ (old : List (Option Child)) (c : Child) (rest : List (Option Child)),
      extractChild cid old = some (c, rest) →
      ∀ x, x ∈ old → x = some c ∨ x ∈ rest := by
  intro old
  induction old with
  | nil =>
    intro c rest h
    simp [extractChild] at h
  | cons oc old ih =>
    intro c rest h x hx
    cases oc with
    | none =>
      simp only [extractChild] at h
      cases hrec : extractChild cid old with
      | none =>
        rw [hrec] at h
        exact absurd h (by simp)
      | some pr =>
        obtain ⟨f, rest'⟩ := pr
        rw [hrec] at h
        simp only [Option.some.injEq, Prod.mk.injEq] at h
        obtain ⟨hc, hrest⟩ := h
        subst hrest
        rcases List.mem_cons.mp hx with rfl | hx'
        · right
          exact List.mem_cons_self _ _
        · rcases ih f rest' hrec x hx' with heq | hmem
          · left
            rw [heq, hc]
          · right
            exact List.mem_cons_of_mem _ hmem
    | some d =>
      simp only [extractChild] at h
      by_cases hd : d.id = cid
      · rw [if_pos hd] at h
        simp only [Option.some.injEq, Prod.mk.injEq] at h
        obtain ⟨hc, hrest⟩ := h
        subst hrest
        rcases List.mem_cons.mp hx with rfl | hx'
        · left
          rw [hc]
        · right
          exact hx'
      · rw [if_neg hd] at h
        cases hrec : extractChild cid old with
        | none =>
          rw [hrec] at h
          exact absurd h (by simp)
        | some pr =>
          obtain ⟨f, rest'⟩ := pr
          rw [hrec] at h
          simp only [Option.some.injEq, Prod.mk.injEq] at h
          obtain ⟨hc, hrest⟩ := h
          subst hrest
          rcases List.mem_cons.mp hx with rfl | hx'
          · right
            exact List.mem_cons_self _ _
          · rcases ih f rest' hrec x hx' with heq | hmem
            · left
              rw [heq, hc]
            · right
              exact List.mem_cons_of_mem _ hmem

/-- The rebuilt result vector has exactly one slot per serialized entry. -/
theorem buildPhase_result_length (master : Bool) :
    ∀ (vs : List ObjectVersion) (old : List (Option Child)),
      (buildPhase master vs old).result.length = vs.length := by
  intro vs
  induction vs with
  | nil =>
    intro old
    rfl
  | cons v vs ih =>
    intro old
    by_cases hz : v.identifier = 0
    · simp [buildPhase, hz, ih]
    · cases hrec : extractChild v.identifier old with
      | none => simp [buildPhase, hz, hrec, ih]
      | some pr =>
        obtain ⟨c, oldRest⟩ := pr
        simp [buildPhase, hz, hrec, ih]

/-- Every old child either gets placed into the result or is left in the
remaining-old vector. -/
theorem buildPhase_old_mem (master : Bool) :
    ∀ (vs : List ObjectVersion) (old : List (Option Child)) (x : Option Child),
      x ∈ old →
      x ∈ (buildPhase master vs old).result ∨
      x ∈ (buildPhase master vs old).oldRemaining := by
  intro vs
  induction vs with
  | nil =>
    intro old x hx
    right
    exact hx
  | cons v vs ih =>
    intro old x hx
    by_cases hz : v.identifier = 0
    · simp only [buildPhase, hz, if_true]
      rcases ih old x hx with h | h
      · left
        exact List.mem_cons_of_mem _ h
      · right
        exact h
    · simp only [buildPhase, hz, if_false]
      cases hrec : extractChild v.identifier old with
      | none =>
        rcases ih old x hx with h | h
        · left
          exact List.mem_cons_of_mem _ h
        · right
          exact h
      | some pr =>
        obtain ⟨c, oldRest⟩ := pr
        rcases extractChild_cover v.identifier old c oldRest hrec x hx with
          rfl | hx'
        · left
          exact List.mem_cons_self _ _
        · rcases ih oldRest x hx' with h | h
          · left
            exact List.mem_cons_of_mem _ h
          · right
            exact h

/-- The removal loop releases every non-null leftover child and unmaps the
attached non-master ones. -/
theorem removePhase_mem :
    ∀ (l : List (Option Child)) (c : Child), some c ∈ l →
      c.id ∈ (removePhase l).2 ∧
      (c.attached = true → c.master = false → c.id ∈ (removePhase l).1) := by
  intro l
  induction l with
  | nil =>
    intro c hc
    simp at hc
  | cons oc l ih =>
    intro c hc
    cases oc with
    | none =>
      have hc' : some c ∈ l := by
        rcases List.mem_cons.mp hc with h | h
        · exact absurd h (by simp)
        · exact h
      simpa only [removePhase] using ih c hc'
    | some d =>
      rcases List.mem_cons.mp hc with h | h
      · have hcd : c = d := by
          injection h
        subst hcd
        simp only [removePhase]
        refine ⟨List.mem_cons_self _ _, ?_⟩
        intro ha hm
        simp [ha, hm]
      · obtain ⟨h2, h1⟩ := ih c h
        simp only [removePhase]
        refine ⟨List.mem_cons_of_mem _ h2, ?_⟩
        intro ha hm
        by_cases hd : (d.attached && !d.master) = true
        · rw [if_pos hd]
          exact List.mem_cons_of_mem _ (h1 ha hm)
        · rw [if_neg hd]
          exact h1 ha hm

/-- Per-index behaviour of the result-building loop, stated against the
serialized entry at the same index. -/
theorem buildPhase_get (master : Bool) :
    ∀ (vs : List ObjectVersion) (old : List (Option Child)) (i : Nat)
      (v : ObjectVersion), vs[i]? = some v →
      (v.identifier = 0 → (buildPhase master vs old).result[i]? = some none) ∧
      (v.identifier ≠ 0 →
        ∃ c, (buildPhase master vs old).result[i]? = some (some c) ∧
          c.id = v.identifier ∧
          ((some c ∈ old ∧
              (c.id, if master then VERSION_HEAD else v.version) ∈
                (buildPhase master vs old).synced) ∨
           (c = createdChild v.identifier ∧
              (v.identifier, v) ∈ (buildPhase master vs old).mapped))) := by
  intro vs
  induction vs with
  | nil =>
    intro old i v hvi
    simp at hvi
  | cons w vs ih =>
    intro old i v hvi
    by_cases hz : w.identifier = 0
    · have heq : buildPhase master (w :: vs) old =
          ⟨none :: (buildPhase master vs old).result,
           (buildPhase master vs old).oldRemaining,
           (buildPhase master vs old).synced,
           (buildPhase master vs old).mapped⟩ := by
        simp [buildPhase, hz]
      cases i with
      | zero =>
        simp only [List.getElem?_cons_zero, Option.some.injEq] at hvi
        subst hvi
        constructor
        · intro _
          rw [heq]
          simp
        · intro hne
          exact absurd hz hne
      | succ j =>
        rw [heq]
        simp only [List.getElem?_cons_succ] at hvi ⊢
        exact ih old j v hvi
    · cases hrec : extractChild w.identifier old with
      | none =>
        have heq : buildPhase master (w :: vs) old =
            ⟨some (createdChild w.identifier) ::
               (buildPhase master vs old).result,
             (buildPhase master vs old).oldRemaining,
             (buildPhase master vs old).synced,
             (w.identifier, w) :: (buildPhase master vs old).mapped⟩ := by
          simp [buildPhase, hz, hrec, createdChild]
        cases i with
        | zero =>
          simp only [List.getElem?_cons_zero, Option.some.injEq] at hvi
          subst hvi
          constructor
          · intro h0
            exact absurd h0 hz
          · intro _
            refine ⟨createdChild w.identifier, ?_, rfl, ?_⟩
            · rw [heq]
              simp
            · right
              refine ⟨rfl, ?_⟩
              rw [heq]
              exact List.mem_cons_self _ _
        | succ j =>
          rw [heq]
          simp only [List.getElem?_cons_succ] at hvi ⊢
          have hrest := ih old j v hvi
          refine ⟨hrest.1, fun hne => ?_⟩
          obtain ⟨c, hres, hid, hcase⟩ := hrest.2 hne
          refine ⟨c, hres, hid, ?_⟩
          rcases hcase with ⟨hm, hs⟩ | ⟨hc, hmem⟩
          · left
            exact ⟨hm, hs⟩
          · right
            exact ⟨hc, List.mem_cons_of_mem _ hmem⟩
      | some pr =>
        obtain ⟨c0, oldRest⟩ := pr
        have heq : buildPhase master (w :: vs) old =
            ⟨some c0 :: (buildPhase master vs oldRest).result,
             (buildPhase master vs oldRest).oldRemaining,
             (c0.id, if master then VERSION_HEAD else w.version) ::
               (buildPhase master vs oldRest).synced,
             (buildPhase master vs oldRest).mapped⟩ := by
          simp [buildPhase, hz, hrec]
        cases i with
        | zero =>
          simp only [List.getElem?_cons_zero, Option.some.injEq] at hvi
          subst hvi
          constructor
          · intro h0
            exact absurd h0 hz
          · intro _
            refine ⟨c0, ?_, (extractChild_mem _ old c0 oldRest hrec).2, ?_⟩
            · rw [heq]
              simp
            · left
              refine ⟨(extractChild_mem _ old c0 oldRest hrec).1, ?_⟩
              rw [heq]
              exact List.mem_cons_self _ _
        | succ j =>
          rw [heq]
          simp only [List.getElem?_cons_succ] at hvi ⊢
          have hrest := ih oldRest j v hvi
          refine ⟨hrest.1, fun hne => ?_⟩
          obtain ⟨c, hres, hid, hcase⟩ := hrest.2 hne
          refine ⟨c, hres, hid, ?_⟩
          rcases hcase with ⟨hm, hs⟩ | ⟨hc, hmem⟩
          · left
            exact ⟨extractChild_rest_mem _ old c0 oldRest hrec _ hm,
              List.mem_cons_of_mem _ hs⟩
          · right
            exact ⟨hc, hmem⟩

/-- A write through the result reference always leaves the written value in
the result cell, aliased or not. -/
theorem writeResult_resultCell (st : ChildStore) (v : List (Option Child)) :
    (st.writeResult v).resultCell = v := by
  by_cases h : st.aliased = true <;> simp [ChildStore.writeResult, h]

/-- The store-threaded building loop appends exactly the value-level result
to whatever the result cell held. -/
theorem buildPhaseStore_resultCell (master : Bool) :
    ∀ (vs : List ObjectVersion) (old : List (Option Child)) (st : ChildStore),
      (buildPhaseStore master vs old st).resultCell =
        st.resultCell ++ (buildPhase master vs old).result := by
  intro vs
  induction vs with
  | nil =>
    intro old st
    simp [buildPhaseStore, buildPhase]
  | cons v vs ih =>
    intro old st
    by_cases hz : v.identifier = 0
    · simp only [buildPhaseStore, buildPhase, hz, if_true]
      rw [ih]
      simp [ChildStore.pushResult, writeResult_resultCell, List.append_assoc]
    · simp only [buildPhaseStore, buildPhase, hz, if_false]
      cases hrec : extractChild v.identifier old with
      | none =>
        show (buildPhaseStore master vs old
            (st.pushResult (some (createdChild v.identifier)))).resultCell = _
        rw [ih]
        simp [ChildStore.pushResult, writeResult_resultCell,
          List.append_assoc]
      | some pr =>
        obtain ⟨c, oldRest⟩ := pr
        show (buildPhaseStore master vs oldRest
            (st.pushResult (some c))).resultCell = _
        rw [ih]
        simp [ChildStore.pushResult, writeResult_resultCell,
          List.append_assoc]

/-- C2: `deserializeChildren` produces one result slot per serialized entry
in serialized order: a ZERO identifier yields a null slot; a non-ZERO
identifier yields a child with that identifier that either came from the old
vector and was synced (to HEAD when this node is master, else to the
serialized version) or was freshly created and mapped to (id, version);
every old child is either placed in the result or released (and unmapped
first when attached and not master); the rebuilt result is the same for any
result cell, aliased with the old vector or not, because old is snapshotted
first; and on the spec scenario (old children ids 1,2,3; incoming
[(2,v2),(ZERO,_),(4,v4),(1,v1)]) the result is [child 2, null, fresh 4,
child 1] with child 3 unmapped and released. -/
theorem deserializeChildren_spec (master : Bool) (old : List (Option Child))
    (versions : List ObjectVersion) :
    (deserializeChildren master old versions).result.length =
      versions.length ∧
    (∀ (i : Nat) (v : ObjectVersion), versions[i]? = some v →
      (v.identifier = 0 →
        (deserializeChildren master old versions).result[i]? = some none) ∧
      (v.identifier ≠ 0 →
        ∃ c, (deserializeChildren master old versions).result[i]? =
            some (some c) ∧
          c.id = v.identifier ∧
          ((some c ∈ old ∧
              (c.id, if master then VERSION_HEAD else v.version) ∈
                (deserializeChildren master old versions).synced) ∨
           (c = createdChild v.identifier ∧
              (v.identifier, v) ∈
                (deserializeChildren master old versions).mapped)))) ∧
    (∀ c : Child, some c ∈ old →
      some c ∈ (deserializeChildren master old versions).result ∨
      (c.id ∈ (deserializeChildren master old versions).released ∧
       (c.attached = true → c.master = false →
         c.id ∈ (deserializeChildren master old versions).unmapped))) ∧
    (∀ (flag : Bool) (r : List (Option Child)),
      (deserializeChildrenStore master versions ⟨flag, r, old⟩).resultCell =
        (deserializeChildren master old versions).result) ∧
    deserializeChildren false
        [some ⟨1, true, false, false⟩, some ⟨2, true, false, false⟩,
         some ⟨3, true, false, false⟩]
        [⟨2, 20⟩, ⟨0, 0⟩, ⟨4, 40⟩, ⟨1, 10⟩] =
      ⟨[some ⟨2, true, false, false⟩, none, some ⟨4, true, false, true⟩,
         some ⟨1, true, false, false⟩],
       [(2, 20), (1, 10)], [(4, ⟨4, 40⟩)], [3], [3]⟩ := by
  refine ⟨buildPhase_result_length master versions old,
    fun i v hvi => buildPhase_get master versions old i v hvi,
    fun c hc => ?_, fun flag r => ?_, by decide⟩
  · rcases buildPhase_old_mem master versions old (some c) hc with h | h
    · left
      exact h
    · right
      exact removePhase_mem _ c (List.mem_reverse.mpr h)
  · show (buildPhaseStore master versions old
        ((⟨flag, r, old⟩ : ChildStore).writeResult [])).resultCell = _
    rw [buildPhaseStore_resultCell, writeResult_resultCell]
    rfl

/-- C2 witness: the per-index part of `deserializeChildren_spec` applied to
a one-entry stream matching the single old child. -/
theorem deserializeChildren_spec_witness :
    ∃ c, (deserializeChildren false [some ⟨1, true, false, false⟩]
        [⟨1, 10⟩]).result[0]? = some (some c) ∧
      c.id = (⟨1, 10⟩ : ObjectVersion).identifier ∧
      ((some c ∈ [some (⟨1, true, false, false⟩ : Child)] ∧
          (c.id, if false then VERSION_HEAD
                 else (⟨1, 10⟩ : ObjectVersion).version) ∈
            (deserializeChildren false [some ⟨1, true, false, false⟩]
              [⟨1, 10⟩]).synced) ∨
       (c = createdChild (⟨1, 10⟩ : ObjectVersion).identifier ∧
          ((⟨1, 10⟩ : ObjectVersion).identifier, (⟨1, 10⟩ : ObjectVersion)) ∈
            (deserializeChildren false [some ⟨1, true, false, false⟩]
              [⟨1, 10⟩]).mapped)) :=
  ((deserializeChildren_spec false [some ⟨1, true, false, false⟩]
      [⟨1, 10⟩]).2.1 0 ⟨1, 10⟩ rfl).2 (by decide)

/-! ## Theorems about the connect retry loop -/

/-- Bounds for the retry loop at any counter value: at most `tries - 1`
attempts are made, every back-off sleep is at most 255 ms, and when every
outcome is CONNECT_TRY_AGAIN exactly `min oracle.length (tries - 1)`
attempts are made. -/
theorem connectRetry_bound :
    ∀ (tries : Nat) (oracle : List ConnectResult) (rng : List Nat),
      (connectRetry tries oracle rng).attempts ≤ tries - 1 ∧
      (∀ s ∈ (connectRetry tries oracle rng).sleeps, s ≤ 255) ∧
      ((∀ r ∈ oracle, r = ConnectResult.tryAgain) →
        (connectRetry tries oracle rng).attempts =
          min oracle.length (tries - 1)) := by
  intro tries
  induction tries with
  | zero =>
    intro oracle rng
    refine ⟨Nat.le_refl _, ?_, ?_⟩
    · intro s hs
      simp [connectRetry] at hs
    · intro _
      simp [connectRetry]
  | succ t ih =>
    intro oracle rng
    by_cases ht : t = 0
    · subst ht
      refine ⟨by simp [connectRetry], ?_, ?_⟩
      · intro s hs
        simp [connectRetry] at hs
      · intro _
        simp [connectRetry]
    · cases oracle with
      | nil =>
        refine ⟨by simp [connectRetry, ht], ?_, ?_⟩
        · intro s hs
          simp [connectRetry, ht] at hs
        · intro _
          simp [connectRetry, ht]
      | cons r os =>
        cases r with
        | ok =>
          refine ⟨?_, ?_, ?_⟩
          · simp only [connectRetry, if_neg ht]
            omega
          · intro s hs
            simp [connectRetry, ht] at hs
          · intro h
            exact absurd (h _ (List.mem_cons_self _ _)) (by decide)
        | badState =>
          refine ⟨?_, ?_, ?_⟩
          · simp only [connectRetry, if_neg ht]
            omega
          · intro s hs
            simp [connectRetry, ht] at hs
          · intro h
            exact absurd (h _ (List.mem_cons_self _ _)) (by decide)
        | timedOut =>
          refine ⟨?_, ?_, ?_⟩
          · simp only [connectRetry, if_neg ht]
            omega
          · intro s hs
            simp [connectRetry, ht] at hs
          · intro h
            exact absurd (h _ (List.mem_cons_self _ _)) (by decide)
        | tryAgain =>
          obtain ⟨iha, ihs, ihm⟩ := ih os rng.tail
          refine ⟨?_, ?_, ?_⟩
          · simp only [connectRetry, if_neg ht]
            omega
          · intro s hs
            simp only [connectRetry, if_neg ht] at hs
            rcases List.mem_cons.mp hs with rfl | hs'
            · have : rng.headD 0 % 256 < 256 :=
                Nat.mod_lt _ (by omega)
              omega
            · exact ihs s hs'
          · intro h
            have htail : ∀ r ∈ os, r = ConnectResult.tryAgain :=
              fun r hr => h r (List.mem_cons_of_mem _ hr)
            have hm := ihm htail
            simp only [connectRetry, if_neg ht]
            simp only [List.length_cons]
            omega
        | unreachable =>
          obtain ⟨iha, ihs, ihm⟩ := ih os rng
          refine ⟨?_, ?_, ?_⟩
          · simp only [connectRetry, if_neg ht]
            omega
          · intro s hs
            simp only [connectRetry, if_neg ht] at hs
            exact ihs s hs
          · intro h
            exact absurd (h _ (List.mem_cons_self _ _)) (by decide)

/-- C4 counterexample: with ten CONNECT_TRY_AGAIN outcomes available the
loop makes 9 attempts, not 10, because `size_t tries = 10; while( --tries )`
pre-decrements before the first test. -/
theorem connectRetry_nine_not_ten :
    (connectByNodeID (List.replicate 10 ConnectResult.tryAgain)
      (List.replicate 10 0)).attempts = 9 ∧
    (connectByNodeID (List.replicate 10 ConnectResult.tryAgain)
      (List.replicate 10 0)).attempts ≠ 10 := by
  decide

/-- C4 (amended): a connect-by-NodeID call makes at most 9 `_connect`
attempts; every randomised back-off sleep between attempts is 0..255 ms,
and a run of CONNECT_TRY_AGAIN outcomes is retried until exhaustion of the
9 attempts. -/
theorem connectRetry_spec (oracle : List ConnectResult) (rng : List Nat) :
    (connectByNodeID oracle rng).attempts ≤ 9 ∧
    (∀ s ∈ (connectByNodeID oracle rng).sleeps, s ≤ 255) ∧
    ((∀ r ∈ oracle, r = ConnectResult.tryAgain) →
      (connectByNodeID oracle rng).attempts = min oracle.length 9) :=
  connectRetry_bound 10 oracle rng

/-- C4 witness: `connectRetry_spec` applied to an all-TRY_AGAIN oracle of
length 12, giving the full 9 attempts. -/
theorem connectRetry_spec_witness :
    (connectByNodeID (List.replicate 12 ConnectResult.tryAgain)
      (List.replicate 12 300)).attempts = min 12 9 :=
  (connectRetry_spec (List.replicate 12 ConnectResult.tryAgain)
      (List.replicate 12 300)).2.2
    (fun _ hr => List.eq_of_mem_replicate hr)

/-! ## Theorems about the pending-command redispatch loop -/

/-- A successful inner pass removes exactly one command from the list. -/
theorem findDispatch_length {σ : Type} (d : σ → PCmd → Option σ) :
    ∀ (l : List PCmd) (s : σ) (l' : List PCmd) (s' : σ),
      findDispatch d s l = some (l', s') → l'.length + 1 = l.length := by
  intro l
  induction l with
  | nil =>
    intro s l' s' h
    simp [findDispatch] at h
  | cons c cs ih =>
    intro s l' s' h
    simp only [findDispatch] at h
    cases hd : d s c with
    | some s1 =>
      rw [hd] at h
      simp only [Option.some.injEq, Prod.mk.injEq] at h
      obtain ⟨hl, -⟩ := h
      subst hl
      rfl
    | none =>
      rw [hd] at h
      cases hrec : findDispatch d s cs with
      | none =>
        rw [hrec] at h
        exact absurd h (by simp)
      | some pr =>
        obtain ⟨cs', s1⟩ := pr
        rw [hrec] at h
        simp only [Option.some.injEq, Prod.mk.injEq] at h
        obtain ⟨hl, -⟩ := h
        subst hl
        have := ih s cs' s1 hrec
        simp only [List.length_cons]
        omega

/-- A pass that dispatches nothing means no listed command dispatches in
the current state. -/
theorem findDispatch_none {σ : Type} (d : σ → PCmd → Option σ) :
    ∀ (l : List PCmd) (s : σ), findDispatch d s l = none →
      ∀ c ∈ l, d s c = none := by
  intro l
  induction l with
  | nil =>
    intro s _ c hc
    simp at hc
  | cons c cs ih =>
    intro s h x hx
    simp only [findDispatch] at h
    cases hd : d s c with
    | some s1 =>
      rw [hd] at h
      exact absurd h (by simp)
    | none =>
      rw [hd] at h
      cases hrec : findDispatch d s cs with
      | some pr =>
        obtain ⟨cs', s1⟩ := pr
        rw [hrec] at h
        exact absurd h (by simp)
      | none =>
        rcases List.mem_cons.mp hx with rfl | hx'
        · exact hd
        · exact ih s hrec x hx'

/-- Fuel one greater than the list length always suffices for the outer
loop to exit. -/
theorem redispatchFuel_total {σ : Type} (d : σ → PCmd → Option σ) :
    ∀ (fuel : Nat) (l : List PCmd) (s : σ), l.length < fuel →
      ∃ l' s', redispatchFuel d fuel l s = some (l', s') ∧
        l'.length ≤ l.length ∧ ∀ c ∈ l', d s' c = none := by
  intro fuel
  induction fuel with
  | zero =>
    intro l s h
    exact absurd h (by omega)
  | succ f ih =>
    intro l s h
    by_cases he : l.isEmpty
    · refine ⟨l, s, ?_, Nat.le_refl _, ?_⟩
      · simp [redispatchFuel, he]
      · intro c hc
        rw [List.isEmpty_iff] at he
        subst he
        exact absurd hc (by simp)
    · cases hfd : findDispatch d s l with
      | none =>
        refine ⟨l, s, ?_, Nat.le_refl _, findDispatch_none d l s hfd⟩
        simp [redispatchFuel, he, hfd]
      | some pr =>
        obtain ⟨l1, s1⟩ := pr
        have hlen := findDispatch_length d l s l1 s1 hfd
        obtain ⟨l', s', hrun, hle, hnd⟩ := ih l1 s1 (by omega)
        refine ⟨l', s', ?_, by omega, hnd⟩
        simp only [redispatchFuel, he, if_false, hfd]
        exact hrun

/-- C8: the redispatch loop terminates for every finite pending list (fuel
length+1 suffices), every successful dispatch strictly shrinks the list, the
loop exits only after a full pass in which no remaining command dispatches,
the list never grows, and hence the exit length stays below the 200-entry
watermark asserted by the code whenever the entry length was below it. -/
theorem redispatchCommands_spec {σ : Type} (d : σ → PCmd → Option σ)
    (l : List PCmd) (s : σ) :
    (∀ (s₀ : σ) (l₀ l₁ : List PCmd) (s₁ : σ),
      findDispatch d s₀ l₀ = some (l₁, s₁) → l₁.length + 1 = l₀.length) ∧
    ∃ l' s', redispatchFuel d (l.length + 1) l s = some (l', s') ∧
      l'.length ≤ l.length ∧
      (∀ c ∈ l', d s' c = none) ∧
      (l.length < 200 → l'.length < 200) := by
  refine ⟨fun s₀ l₀ l₁ s₁ h => findDispatch_length d l₀ s₀ l₁ s₁ h, ?_⟩
  obtain ⟨l', s', hrun, hle, hnd⟩ :=
    redispatchFuel_total d (l.length + 1) l s (by omega)
  exact ⟨l', s', hrun, hle, hnd, by omega⟩

/-- C8 witness: the loop on a concrete two-command list with a dispatch
function that consumes commands in id order. -/
theorem redispatchCommands_spec_witness :
    ∃ l' s',
      redispatchFuel
          (fun (s : Nat) (c : PCmd) => if c.id = s then some (s + 1) else none)
          (([⟨0⟩, ⟨1⟩] : List PCmd).length + 1) [⟨0⟩, ⟨1⟩] 0 =
        some (l', s') ∧
      l'.length ≤ ([⟨0⟩, ⟨1⟩] : List PCmd).length ∧
      (∀ c ∈ l',
        (if c.id = s' then some (s' + 1) else none) = (none : Option Nat)) ∧
      (([⟨0⟩, ⟨1⟩] : List PCmd).length < 200 → l'.length < 200) :=
  (redispatchCommands_spec
    (fun (s : Nat) (c : PCmd) => if c.id = s then some (s + 1) else none)
    [⟨0⟩, ⟨1⟩] 0).2

/-! ## Theorems about the connect handshake handlers -/

/-- Inserting into an association-list map makes the key look up the new
value. -/
theorem mapInsert_lookup (m : List (Nat × RNode)) (k : Nat) (v : RNode) :
    (mapInsert m k v).lookup k = some v := by
  simp [mapInsert, List.lookup]

/-- The CONNECTED node stored by the accept tail of `_cmdConnectReply` is
retrievable from both maps, and the request is served true alongside one
CONNECT_ACK. -/
theorem finishConnectReply_spec (s : NetState) (conn : Nat)
    (p : ConnectReplyPacket) (peer : RNode) :
    ∃ node : RNode, node.state = NState.connected ∧ node.id = p.nodeID ∧
      (finishConnectReply s conn p peer).state.connectionNodes.lookup conn =
        some node ∧
      (finishConnectReply s conn p peer).state.nodes.lookup p.nodeID =
        some node ∧
      (finishConnectReply s conn p peer).served = [(p.requestID, true)] ∧
      (finishConnectReply s conn p peer).acksTo = [p.nodeID] := by
  refine ⟨⟨p.nodeID, peer.nodeType, NState.connected, some conn⟩, rfl, rfl,
    ?_, ?_, rfl, rfl⟩
  · exact mapInsert_lookup s.connectionNodes conn _
  · exact mapInsert_lookup s.nodes p.nodeID _

/-- C6: an inbound CONNECT whose nodeID maps to an already CONNECTED peer
is refused: the handler sends a reply whose nodeID is ZERO on the new
connection, removes that connection from the connection set, and leaves the
NodeID-to-node and connection-to-node maps unchanged. -/
theorem cmdConnect_refusal (s : NetState) (conn : Nat) (p : ConnectPacket)
    (n : RNode) (hfind : s.nodes.lookup p.nodeID = some n)
    (hconn : n.state = NState.connected) :
    cmdConnect s conn p =
      ({ s with incoming := s.incoming.erase conn },
       [(conn, ⟨p.requestID, 0, 0⟩)]) ∧
    (cmdConnect s conn p).1.nodes = s.nodes ∧
    (cmdConnect s conn p).1.connectionNodes = s.connectionNodes := by
  have h1 : cmdConnect s conn p =
      (removeConnection s conn, [(conn, mkConnectReply p)]) := by
    simp only [cmdConnect, hfind, if_pos hconn]
  refine ⟨?_, ?_, ?_⟩ <;> simp [h1, removeConnection, mkConnectReply]

/-- C6 witness: `cmdConnect_refusal` on a concrete state whose node 7 is
already CONNECTED on connection 3 when a new CONNECT for node 7 arrives on
connection 9. -/
theorem cmdConnect_refusal_witness :
    cmdConnect
        ⟨5, 1, [(7, ⟨7, 1, NState.connected, some 3⟩)],
         [(3, ⟨7, 1, NState.connected, some 3⟩)], [3, 9]⟩ 9 ⟨42, 7, 1⟩ =
      (⟨5, 1, [(7, ⟨7, 1, NState.connected, some 3⟩)],
        [(3, ⟨7, 1, NState.connected, some 3⟩)],
        ([3, 9] : List Nat).erase 9⟩,
       [(9, ⟨42, 0, 0⟩)]) :=
  (cmdConnect_refusal
    ⟨5, 1, [(7, ⟨7, 1, NState.connected, some 3⟩)],
     [(3, ⟨7, 1, NState.connected, some 3⟩)], [3, 9]⟩ 9 ⟨42, 7, 1⟩
    ⟨7, 1, NState.connected, some 3⟩ (by rfl) rfl).1

/-- C5: a CONNECT_REPLY with nodeID ZERO removes the new connection and
serves the awaited connect request false; a CONNECT_REPLY whose nodeID is
not yet connected marks the expected node CONNECTED, stores it in the
connection-to-node and NodeID-to-node maps, sends a CONNECT_ACK and serves
the request true. -/
theorem cmdConnectReply_spec (s : NetState) (conn : Nat)
    (p : ConnectReplyPacket) (rd : Option RNode) :
    (p.nodeID = 0 →
      cmdConnectReply s conn p rd =
        ⟨{ s with incoming := s.incoming.erase conn },
         [(p.requestID, false)], []⟩) ∧
    (p.nodeID ≠ 0 →
      (∀ m, s.nodes.lookup p.nodeID = some m → m.state ≠ NState.connected) →
      ∃ node : RNode, node.state = NState.connected ∧ node.id = p.nodeID ∧
        (cmdConnectReply s conn p rd).state.connectionNodes.lookup conn =
          some node ∧
        (cmdConnectReply s conn p rd).state.nodes.lookup p.nodeID =
          some node ∧
        (cmdConnectReply s conn p rd).served = [(p.requestID, true)] ∧
        (cmdConnectReply s conn p rd).acksTo = [p.nodeID]) := by
  constructor
  · intro h
    simp [cmdConnectReply, h, removeConnection]
  · intro h hnc
    cases hl : s.nodes.lookup p.nodeID with
    | some m =>
      have hm := hnc m hl
      have heq : cmdConnectReply s conn p rd = finishConnectReply s conn p m := by
        simp only [cmdConnectReply, if_neg h, hl, if_neg hm]
      rw [heq]
      exact finishConnectReply_spec s conn p m
    | none =>
      cases rd with
      | some n =>
        have heq : cmdConnectReply s conn p (some n) =
            finishConnectReply s conn p n := by
          simp only [cmdConnectReply, if_neg h, hl]
        rw [heq]
        exact finishConnectReply_spec s conn p n
      | none =>
        have heq : cmdConnectReply s conn p none =
            finishConnectReply s conn p (createNode p.nodeType) := by
          simp only [cmdConnectReply, if_neg h, hl]
        rw [heq]
        exact finishConnectReply_spec s conn p (createNode p.nodeType)

/-- C5 witness: the refusal branch at a ZERO reply, and the success branch
for an expected node 7 arriving on connection 3 of a node with empty maps. -/
theorem cmdConnectReply_spec_witness :
    cmdConnectReply ⟨5, 1, [], [], [3]⟩ 3 ⟨42, 0, 1⟩ none =
      ⟨⟨5, 1, [], [], ([3] : List Nat).erase 3⟩, [(42, false)], []⟩ ∧
    ∃ node : RNode, node.state = NState.connected ∧ node.id = 7 ∧
      (cmdConnectReply ⟨5, 1, [], [], [3]⟩ 3 ⟨42, 7, 1⟩
          (some ⟨7, 1, NState.closed, none⟩)).state.connectionNodes.lookup 3 =
        some node ∧
      (cmdConnectReply ⟨5, 1, [], [], [3]⟩ 3 ⟨42, 7, 1⟩
          (some ⟨7, 1, NState.closed, none⟩)).state.nodes.lookup 7 =
        some node ∧
      (cmdConnectReply ⟨5, 1, [], [], [3]⟩ 3 ⟨42, 7, 1⟩
          (some ⟨7, 1, NState.closed, none⟩)).served = [(42, true)] ∧
      (cmdConnectReply ⟨5, 1, [], [], [3]⟩ 3 ⟨42, 7, 1⟩
          (some ⟨7, 1, NState.closed, none⟩)).acksTo = [7] :=
  ⟨(cmdConnectReply_spec ⟨5, 1, [], [], [3]⟩ 3 ⟨42, 0, 1⟩ none).1 rfl,
   (cmdConnectReply_spec ⟨5, 1, [], [], [3]⟩ 3 ⟨42, 7, 1⟩
      (some ⟨7, 1, NState.closed, none⟩)).2 (by decide)
     (by intro m hm; simp [List.lookup] at hm)⟩

/-- C10 witness: `close_spec` applied at the CLOSED and LISTENING states. -/
theorem close_spec_witness :
    close NState.closed = ⟨false, false, NState.closed, false⟩ ∧
    (NState.listening = NState.listening ∧
      (close NState.listening).joinedReceiver = true) :=
  ⟨(close_spec NState.closed).1 (by decide),
   (close_spec NState.listening).2 (by decide)⟩

end Collage
